import Mathlib

/-!
Shallow embedding of the TurboNodeIO native addon (src/file_io.cc) and proofs
about its three operations: the mmap-based region read `FastReadFile`, the
checksum `SimdChecksum`, and the metadata query `GetFileStats`.

Machine integers are modelled as `Nat`/`Int` with explicit reduction modulo
`2 ^ 64` where the C code relies on two's-complement wraparound.  File contents
and buffers are lists of bytes (naturals below 256).  OS primitives (`mmap`,
`stat`) are modelled explicitly; the events each call emits are recorded in a
trace so that claims about which OS calls happen, and in which order, can be
stated.
-/

def M64 : Nat := 2 ^ 64

/-- Value produced by the C cast of a signed 64-bit quantity to `uint64_t` /
`size_t`: reduction modulo `2 ^ 64` (two's complement reinterpretation). -/
def toUInt64 (x : Int) : Nat := (x % (M64 : Int)).toNat

/-- Value produced by reinterpreting an unsigned 64-bit quantity as `int64_t`
under two's complement. -/
def toInt64 (n : Nat) : Int :=
  if n % M64 < 2 ^ 63 then ((n % M64 : Nat) : Int)
  else ((n % M64 : Nat) : Int) - (M64 : Int)

/-- `aligned_offset = (offset / granularity) * granularity` (src/file_io.cc:146).
In C the `int64_t` offset is converted to the unsigned type of `granularity`
(`size_t`) before the division, and the unsigned result is stored back into an
`int64_t` variable. -/
def alignedOffset (granularity : Nat) (offset : Int) : Int :=
  toInt64 (toUInt64 offset / granularity * granularity)

/-- `padding = (size_t)(offset - aligned_offset)` (src/file_io.cc:147). -/
def mapPadding (granularity : Nat) (offset : Int) : Nat :=
  toUInt64 (offset - alignedOffset granularity offset)

/-- `map_length = (size_t)(length + padding)` (src/file_io.cc:148); the
addition happens in the unsigned 64-bit domain. -/
def mapLength (granularity : Nat) (offset length : Int) : Nat :=
  toUInt64 (length + (mapPadding granularity offset : Int))

/-- Bookkeeping record `MmapInfo` (src/file_io.cc:74-77): the true mapping
base address and the true mapped length, kept for the release callback. -/
structure MmapInfo where
  mapped_addr : Nat
  mapped_len : Nat
deriving DecidableEq

/-- OS calls made by `FastReadFile`, recorded in order. -/
inductive OsEvent where
  | openFile
  | mapCall
  | closeFile
deriving DecidableEq

/-- Failure modes of the region read.  `invalidArgument` is the error class
the specification assigns to negative offset/length; the code itself only
ever produces the other two. -/
inductive ReadError where
  | invalidArgument
  | fileOpenError
  | mappingError
deriving DecidableEq

/-- The caller-visible byte view returned on success: base address, the length
passed to the buffer constructor (`(size_t)length`), the bytes visible through
the view, and the bookkeeping record attached to the release callback
(`none` when no callback is attached). -/
structure ByteView where
  base : Nat
  len : Nat
  content : List Nat
  release : Option MmapInfo
deriving DecidableEq

/-- Model of the OS mapping call (`mmap` on POSIX, `CreateFileMapping` +
`MapViewOfFile` on Windows), per the platform contract the code and the
specification rely on: the call succeeds exactly when the requested region is
nonempty, starts at a nonnegative file offset and lies entirely within the
file; on success the mapped bytes are the file's bytes at
`[alignedOff, alignedOff + len)`.  The code always passes a granularity-aligned
offset, so alignment is not modelled as a separate failure condition. -/
def osMap (file : List Nat) (alignedOff : Int) (len : Nat) : Option (List Nat) :=
  if 0 ≤ alignedOff ∧ 0 < len ∧ alignedOff.toNat + len ≤ file.length then
    some ((file.drop alignedOff.toNat).take len)
  else none

/-- Shallow embedding of `FastReadFile` (src/file_io.cc:110-202).  `file` is
`none` when the `open` call fails; `granularity` is the value returned by
`GetAllocationGranularity` (an OS query, so a parameter here, not a constant);
`addr` is the address at which the OS places a successful mapping.  The second
component of the result is the trace of OS calls, in order: the code opens the
file, short-circuits on `length == 0`, otherwise computes the aligned mapping
parameters, calls the mapping routine, closes the descriptor, and only then
inspects the mapping result; on success the buffer handed back starts
`padding` bytes into the mapping and carries the `MmapInfo` record. -/
def FastReadFile (file : Option (List Nat)) (granularity : Nat) (addr : Nat)
    (offset length : Int) : Except ReadError ByteView × List OsEvent :=
  match file with
  | none => (.error .fileOpenError, [.openFile])
  | some bytes =>
    if length = 0 then
      (.ok ⟨0, 0, [], none⟩, [.openFile, .closeFile])
    else
      match osMap bytes (alignedOffset granularity offset)
          (mapLength granularity offset length) with
      | none => (.error .mappingError, [.openFile, .mapCall, .closeFile])
      | some mapped =>
        (.ok ⟨addr + mapPadding granularity offset, toUInt64 length,
              (mapped.drop (mapPadding granularity offset)).take (toUInt64 length),
              some ⟨addr, mapLength granularity offset length⟩⟩,
         [.openFile, .mapCall, .closeFile])

/-- Actions performed by the release callback. -/
inductive ReleaseAction where
  | unmapRegion (addr len : Nat)
  | freeInfo (addr len : Nat)
deriving DecidableEq

/-- Shallow embedding of `UnmapCallback` (src/file_io.cc:79-89): the callback
receives the bookkeeping record as its hint; when the record is present it
unmaps the recorded region (`munmap(info->mapped_addr, info->mapped_len)`)
and frees the record in the same invocation. -/
def UnmapCallback (hint : Option MmapInfo) : List ReleaseAction :=
  match hint with
  | none => []
  | some info => [.unmapRegion info.mapped_addr info.mapped_len,
                  .freeInfo info.mapped_addr info.mapped_len]

/-- Little-endian 64-bit value of a byte list (first byte least significant):
how `_mm256_loadu_si256` presents 8 consecutive bytes as a 64-bit lane. -/
def le64 (l : List Nat) : Nat := l.foldr (fun b acc => b + 256 * acc) 0

/-- The four 64-bit lanes of the 256-bit accumulator. -/
structure Lanes where
  l0 : Nat
  l1 : Nat
  l2 : Nat
  l3 : Nat
deriving DecidableEq

/-- Lane `j` of a 32-byte chunk: the little-endian 64-bit word formed by bytes
`[8 * j, 8 * j + 8)` of the chunk. -/
def laneOf (chunk : List Nat) (j : Nat) : Nat := le64 ((chunk.drop (8 * j)).take 8)

/-- `_mm256_add_epi64`: four independent wrapping 64-bit additions, no carry
between lanes (src/file_io.cc:233). -/
def addChunk (acc : Lanes) (chunk : List Nat) : Lanes :=
  ⟨(acc.l0 + laneOf chunk 0) % M64, (acc.l1 + laneOf chunk 1) % M64,
   (acc.l2 + laneOf chunk 2) % M64, (acc.l3 + laneOf chunk 3) % M64⟩

/-- The vector loop of `SimdChecksum` (src/file_io.cc:231-234), consuming `k`
full 32-byte chunks from the front of the buffer. -/
def simdLoopN : Nat → Lanes → List Nat → Lanes × List Nat
  | 0, acc, l => (acc, l)
  | k + 1, acc, l => simdLoopN k (addChunk acc (l.take 32)) (l.drop 32)

/-- The scalar fold `hash = hash * 31 + byte` in 64-bit wraparound arithmetic
(src/file_io.cc:247-249 and 252-254). -/
def scalarFold (hash : Nat) (l : List Nat) : Nat :=
  l.foldl (fun h b => (h * 31 + b) % M64) hash

/-- Hash value computed by `SimdChecksum` on a vector-capable (x86_64)
platform: the chunk loop runs `length / 32` iterations, the four lanes are
XOR-folded into `hash`, and the remaining bytes go through the scalar fold.
When `length < 32` the loop body is skipped and `hash` stays 0, which
coincides with the XOR-fold of the all-zero accumulator. -/
def simdHash (buf : List Nat) : Nat :=
  scalarFold
    ((simdLoopN (buf.length / 32) ⟨0, 0, 0, 0⟩ buf).1.l0
      ^^^ (simdLoopN (buf.length / 32) ⟨0, 0, 0, 0⟩ buf).1.l1
      ^^^ (simdLoopN (buf.length / 32) ⟨0, 0, 0, 0⟩ buf).1.l2
      ^^^ (simdLoopN (buf.length / 32) ⟨0, 0, 0, 0⟩ buf).1.l3)
    (simdLoopN (buf.length / 32) ⟨0, 0, 0, 0⟩ buf).2

/-- Hash value computed by the scalar fallback path of `SimdChecksum`
(src/file_io.cc:250-255): the whole buffer folded from zero. -/
def scalarHash (buf : List Nat) : Nat := scalarFold 0 buf

/-- One lowercase hexadecimal digit, as produced by `%x` formatting. -/
def hexDigit (n : Nat) : Char :=
  if n < 10 then Char.ofNat (48 + n) else Char.ofNat (87 + n)

/-- `snprintf(hex, sizeof(hex), "%016llx", hash)` (src/file_io.cc:259):
exactly 16 zero-padded lowercase hexadecimal digits, most significant first. -/
def toHex16 (n : Nat) : String :=
  String.mk ((List.range 16).map (fun i => hexDigit (n / 16 ^ (15 - i) % 16)))

/-- Shallow embedding of `SimdChecksum` (src/file_io.cc:211-264) on a platform
with 256-bit vector support. -/
def SimdChecksum (buf : List Nat) : String := toHex16 (simdHash buf)

/-- `SimdChecksum` on a platform without 256-bit vector support: the scalar
fallback only. -/
def SimdChecksumScalar (buf : List Nat) : String := toHex16 (scalarHash buf)

/-- Spec-side definition (spec.md §4.2): the buffer's full 32-byte chunks. -/
def specChunks (buf : List Nat) : List (List Nat) :=
  (List.range (buf.length / 32)).map (fun c => (buf.drop (32 * c)).take 32)

/-- Spec-side definition: the bytes left after all full 32-byte chunks. -/
def specRemainder (buf : List Nat) : List Nat := buf.drop (32 * (buf.length / 32))

/-- Spec-side definition: lane `j` of the accumulator after all chunks are
consumed — the wrapping 64-bit sum, starting from zero, of the little-endian
64-bit words at lane position `j` of each chunk. -/
def specLane (buf : List Nat) (j : Nat) : Nat :=
  ((specChunks buf).map (fun ch => laneOf ch j)).foldl (fun a b => (a + b) % M64) 0

/-- Spec-side fingerprint, following spec.md §4.2 word for word: add all full
32-byte chunks lane-wise into a zero accumulator, XOR-fold the four lanes,
fold the remaining bytes with `hash = hash * 31 + byte` in 64-bit wraparound
arithmetic, and render as 16 zero-padded lowercase hex characters.  For a
buffer under 32 bytes there are no chunks, the XOR-fold is 0, and the whole
buffer is the remainder, matching the spec's scalar-only clause. -/
def specFingerprint (buf : List Nat) : String :=
  toHex16 (scalarFold
    (specLane buf 0 ^^^ specLane buf 1 ^^^ specLane buf 2 ^^^ specLane buf 3)
    (specRemainder buf))

/-- Recursive view of the chunk decomposition, used to relate the loop to the
spec-side chunk list. -/
def chunkListN : Nat → List Nat → List (List Nat)
  | 0, _ => []
  | k + 1, l => l.take 32 :: chunkListN k (l.drop 32)

/-- Metadata record returned by `GetFileStats`: `{size, mtime}` as signed
64-bit integers (src/file_io.cc:297-303). -/
structure StatRecord where
  size : Int
  mtime : Int
deriving DecidableEq

/-- Failure mode of `GetFileStats`. -/
inductive StatError where
  | statFailed
deriving DecidableEq

/-- Model of the OS `stat` call over a model filesystem that maps each path
to `none` (stat fails: nonexistent path, permission denied, ...) or to the
file's byte content together with its modification time in whole seconds
since the epoch: `st_size` is the content's byte length, `st_mtime` the
stored time. -/
def osStat (fs : String → Option (List Nat × Int)) (path : String) :
    Option StatRecord :=
  (fs path).map (fun f => ⟨(f.1.length : Int), f.2⟩)

/-- Shallow embedding of `GetFileStats` (src/file_io.cc:272-306): call `stat`;
on failure raise the stat error, otherwise return `{size, mtime}`. -/
def GetFileStats (fs : String → Option (List Nat × Int)) (path : String) :
    Except StatError StatRecord :=
  match osStat fs path with
  | none => .error .statFailed
  | some st => .ok ⟨st.size, st.mtime⟩

/-- Example filesystem used to instantiate the stat theorem. -/
def fsExample : String → Option (List Nat × Int) := fun p =>
  if p = "data.bin" then some ([3, 1, 4], 99) else none

/-! ### Arithmetic helpers -/

theorem toUInt64_of_nonneg_lt (x : Int) (h0 : 0 ≤ x) (hlt : x < (M64 : Int)) :
    toUInt64 x = x.toNat := by
  unfold toUInt64
  rw [Int.emod_eq_of_lt h0 hlt]

theorem toInt64_of_lt (n : Nat) (h : n < 2 ^ 63) : toInt64 n = (n : Int) := by
  unfold toInt64
  have hm : n % M64 = n := Nat.mod_eq_of_lt (lt_of_lt_of_le h (by norm_num [M64]))
  rw [hm, if_pos h]

theorem toUInt64_natCast (n : Nat) (h : n < M64) : toUInt64 ((n : Nat) : Int) = n := by
  rw [toUInt64_of_nonneg_lt _ (Int.natCast_nonneg n) (by exact_mod_cast h)]
  exact Int.toNat_natCast n

theorem alignedOffset_eq (granularity : Nat) (offset : Int)
    (ho : 0 ≤ offset) (hlt : offset < 2 ^ 63) :
    alignedOffset granularity offset =
      ((offset.toNat / granularity * granularity : Nat) : Int) := by
  have hOlt : offset.toNat < 2 ^ 63 := by
    have hc : ((offset.toNat : Nat) : Int) = offset := Int.toNat_of_nonneg ho
    exact_mod_cast hc ▸ hlt
  unfold alignedOffset
  rw [toUInt64_of_nonneg_lt offset ho (lt_trans hlt (by norm_num [M64]))]
  exact toInt64_of_lt _ (lt_of_le_of_lt (Nat.div_mul_le_self _ _) hOlt)

theorem mapPadding_eq (granularity : Nat) (offset : Int)
    (ho : 0 ≤ offset) (hlt : offset < 2 ^ 63) :
    mapPadding granularity offset = offset.toNat % granularity := by
  obtain ⟨O, rfl⟩ : ∃ O : Nat, ((O : Nat) : Int) = offset :=
    ⟨offset.toNat, Int.toNat_of_nonneg ho⟩
  have hOlt : O < 2 ^ 63 := by exact_mod_cast hlt
  unfold mapPadding
  rw [alignedOffset_eq granularity _ ho hlt]
  simp only [Int.toNat_natCast]
  rw [← Nat.cast_sub (Nat.div_mul_le_self _ _)]
  rw [toUInt64_natCast _ (by
    calc O - O / granularity * granularity
        ≤ O := Nat.sub_le _ _
      _ < 2 ^ 63 := hOlt
      _ < M64 := by norm_num [M64])]
  exact Nat.sub_eq_of_eq_add (Nat.mod_add_div' O granularity).symm

theorem mapLength_eq (granularity : Nat) (offset length : Int)
    (ho : 0 ≤ offset) (hofflt : offset < 2 ^ 63)
    (hl : 0 ≤ length) (hllt : length < 2 ^ 63) :
    mapLength granularity offset length =
      length.toNat + offset.toNat % granularity := by
  obtain ⟨L, rfl⟩ : ∃ L : Nat, ((L : Nat) : Int) = length :=
    ⟨length.toNat, Int.toNat_of_nonneg hl⟩
  have hOlt : offset.toNat < 2 ^ 63 := by
    have hc : ((offset.toNat : Nat) : Int) = offset := Int.toNat_of_nonneg ho
    exact_mod_cast hc ▸ hofflt
  have hLlt : L < 2 ^ 63 := by exact_mod_cast hllt
  unfold mapLength
  rw [mapPadding_eq granularity offset ho hofflt]
  simp only [Int.toNat_natCast]
  rw [← Nat.cast_add]
  exact toUInt64_natCast _ (by
    have hP : offset.toNat % granularity ≤ offset.toNat := Nat.mod_le _ _
    calc L + offset.toNat % granularity
        < 2 ^ 63 + 2 ^ 63 := by omega
      _ = M64 := by norm_num [M64])

/-- Full evaluation of `FastReadFile` on a valid in-bounds request: the view
starts `offset % granularity` bytes into the mapping, advertises exactly the
requested length, shows the file's bytes at `[offset, offset + length)`, and
carries the bookkeeping record with the true mapping base and length. -/
theorem FastReadFile_valid (bytes : List Nat) (granularity addr : Nat)
    (offset length : Int) (ho : 0 ≤ offset)
    (hl : 0 < length) (hin : offset + length ≤ (bytes.length : Int))
    (hfile : (bytes.length : Int) < 2 ^ 63) :
    FastReadFile (some bytes) granularity addr offset length =
      (Except.ok ⟨addr + offset.toNat % granularity, length.toNat,
        (bytes.drop offset.toNat).take length.toNat,
        some ⟨addr, length.toNat + offset.toNat % granularity⟩⟩,
       [OsEvent.openFile, OsEvent.mapCall, OsEvent.closeFile]) := by
  have hofflt : offset < 2 ^ 63 := by linarith
  have hllt : length < 2 ^ 63 := by linarith
  set O := offset.toNat with hOdef
  set L := length.toNat with hLdef
  have hOc : ((O : Nat) : Int) = offset := Int.toNat_of_nonneg ho
  have hLc : ((L : Nat) : Int) = length := Int.toNat_of_nonneg (le_of_lt hl)
  have hOL : O + L ≤ bytes.length := by
    have h2 : ((O + L : Nat) : Int) ≤ (bytes.length : Int) := by
      push_cast
      rw [hOc, hLc]
      exact hin
    exact_mod_cast h2
  have hLpos : 0 < L := by
    have : (0 : Int) < (L : Int) := by rw [hLc]; exact hl
    exact_mod_cast this
  have hLlt : L < 2 ^ 63 := by exact_mod_cast hLc ▸ hllt
  have hne : ¬(length = 0) := by omega
  have hP : mapPadding granularity offset = O % granularity :=
    mapPadding_eq granularity offset ho hofflt
  have hM : mapLength granularity offset length = L + O % granularity :=
    mapLength_eq granularity offset length ho hofflt (le_of_lt hl) hllt
  have hUL : toUInt64 length = L := by
    rw [← hLc]
    exact toUInt64_natCast L (lt_trans hLlt (by norm_num [M64]))
  have hdm : O / granularity * granularity + O % granularity = O :=
    Nat.div_add_mod' O granularity
  have hmap : osMap bytes (alignedOffset granularity offset)
      (mapLength granularity offset length)
      = some ((bytes.drop (O / granularity * granularity)).take
          (L + O % granularity)) := by
    rw [alignedOffset_eq granularity offset ho hofflt, hM]
    unfold osMap
    have hcond : (0 : Int) ≤ ((O / granularity * granularity : Nat) : Int) ∧
        0 < L + O % granularity ∧
        ((O / granularity * granularity : Nat) : Int).toNat
          + (L + O % granularity) ≤ bytes.length := by
      refine ⟨Int.natCast_nonneg _, Nat.lt_of_lt_of_le hLpos (Nat.le_add_right _ _), ?_⟩
      rw [Int.toNat_natCast]
      have hsum : O / granularity * granularity + (L + O % granularity)
          = O / granularity * granularity + O % granularity + L := by ring
      rw [hsum, hdm]
      exact hOL
    rw [if_pos hcond, Int.toNat_natCast]
  simp only [FastReadFile]
  rw [if_neg hne, hmap]
  simp only [hP, hM, hUL]
  have hcontent : (((bytes.drop (O / granularity * granularity)).take
      (L + O % granularity)).drop (O % granularity)).take L
      = (bytes.drop O).take L := by
    rw [List.drop_take, List.drop_drop]
    have h1 : L + O % granularity - O % granularity = L := by omega
    rw [h1, hdm, List.take_take, Nat.min_self]
  rw [hcontent]

/-- C1: for every file, non-negative offset, and length > 0 with
`[offset, offset + length)` inside the file, `readRegion` (`FastReadFile`)
returns a view of exactly `length` bytes whose content equals the file's
bytes at `[offset, offset + length)`, with the view's base placed `padding`
bytes into the mapping (`base = mapped_addr + padding`) rather than copied
into a separate buffer. -/
theorem readRegion_returns_requested_bytes (bytes : List Nat)
    (granularity addr : Nat) (offset length : Int) (hg : 0 < granularity)
    (ho : 0 ≤ offset) (hl : 0 < length)
    (hin : offset + length ≤ (bytes.length : Int))
    (hfile : (bytes.length : Int) < 2 ^ 63) :
    ∃ v : ByteView,
      (FastReadFile (some bytes) granularity addr offset length).1
        = Except.ok v ∧
      v.len = length.toNat ∧
      v.content.length = length.toNat ∧
      v.content = (bytes.drop offset.toNat).take length.toNat ∧
      v.base = addr + mapPadding granularity offset := by
  have hofflt : offset < 2 ^ 63 := by linarith
  refine ⟨⟨addr + offset.toNat % granularity, length.toNat,
      (bytes.drop offset.toNat).take length.toNat,
      some ⟨addr, length.toNat + offset.toNat % granularity⟩⟩, ?_, rfl, ?_, rfl, ?_⟩
  · rw [FastReadFile_valid bytes granularity addr offset length ho hl hin hfile]
  · rw [List.length_take, List.length_drop]
    have hOL : offset.toNat + length.toNat ≤ bytes.length := by
      have hOc : ((offset.toNat : Nat) : Int) = offset := Int.toNat_of_nonneg ho
      have hLc : ((length.toNat : Nat) : Int) = length :=
        Int.toNat_of_nonneg (le_of_lt hl)
      have h2 : ((offset.toNat + length.toNat : Nat) : Int) ≤ (bytes.length : Int) := by
        push_cast
        rw [hOc, hLc]
        exact hin
      exact_mod_cast h2
    omega
  · rw [mapPadding_eq granularity offset ho hofflt]

/-- Closed instance of `readRegion_returns_requested_bytes` on a concrete
6-byte file, offset 1, length 3. -/
theorem readRegion_returns_requested_bytes_witness :
    ∃ v : ByteView,
      (FastReadFile (some [10, 20, 30, 40, 50, 60]) 4 1000 1 3).1
        = Except.ok v ∧
      v.len = (3 : Int).toNat ∧
      v.content.length = (3 : Int).toNat ∧
      v.content = (([10, 20, 30, 40, 50, 60] : List Nat).drop (1 : Int).toNat).take
        (3 : Int).toNat ∧
      v.base = 1000 + mapPadding 4 1 :=
  readRegion_returns_requested_bytes [10, 20, 30, 40, 50, 60] 4 1000 1 3
    (by decide) (by decide) (by decide) (by decide) (by decide)

/-- C2: for every successful mapping created by `readRegion`, the release
callback attached to the view carries the true mapping base and the true
mapped length `map_length = length + padding` (not the padding-adjusted
caller-visible base/length), and invoking it unmaps exactly that region and
frees the bookkeeping record in the same invocation. -/
theorem release_carries_true_mapping (bytes : List Nat)
    (granularity addr : Nat) (offset length : Int) (hg : 0 < granularity)
    (ho : 0 ≤ offset) (hl : 0 < length)
    (hin : offset + length ≤ (bytes.length : Int))
    (hfile : (bytes.length : Int) < 2 ^ 63) :
    ∃ v : ByteView,
      (FastReadFile (some bytes) granularity addr offset length).1
        = Except.ok v ∧
      v.release = some ⟨addr, mapLength granularity offset length⟩ ∧
      mapLength granularity offset length
        = length.toNat + mapPadding granularity offset ∧
      UnmapCallback v.release =
        [ReleaseAction.unmapRegion addr (mapLength granularity offset length),
         ReleaseAction.freeInfo addr (mapLength granularity offset length)] := by
  have hofflt : offset < 2 ^ 63 := by linarith
  have hllt : length < 2 ^ 63 := by linarith
  have hM : mapLength granularity offset length
      = length.toNat + offset.toNat % granularity :=
    mapLength_eq granularity offset length ho hofflt (le_of_lt hl) hllt
  have hP : mapPadding granularity offset = offset.toNat % granularity :=
    mapPadding_eq granularity offset ho hofflt
  refine ⟨⟨addr + offset.toNat % granularity, length.toNat,
      (bytes.drop offset.toNat).take length.toNat,
      some ⟨addr, length.toNat + offset.toNat % granularity⟩⟩, ?_, ?_, ?_, ?_⟩
  · rw [FastReadFile_valid bytes granularity addr offset length ho hl hin hfile]
  · rw [hM]
  · rw [hM, hP]
  · rw [hM]
    rfl

/-- Closed instance of `release_carries_true_mapping` on a concrete 6-byte
file, offset 1, length 3 (padding 1, map length 4). -/
theorem release_carries_true_mapping_witness :
    ∃ v : ByteView,
      (FastReadFile (some [10, 20, 30, 40, 50, 60]) 4 1000 1 3).1
        = Except.ok v ∧
      v.release = some ⟨1000, mapLength 4 1 3⟩ ∧
      mapLength 4 1 3 = (3 : Int).toNat + mapPadding 4 1 ∧
      UnmapCallback v.release =
        [ReleaseAction.unmapRegion 1000 (mapLength 4 1 3),
         ReleaseAction.freeInfo 1000 (mapLength 4 1 3)] :=
  release_carries_true_mapping [10, 20, 30, 40, 50, 60] 4 1000 1 3
    (by decide) (by decide) (by decide) (by decide) (by decide)

/-- C6: whenever the OS mapping call fails in `readRegion` — in particular
when `offset + length` extends beyond end-of-file — the operation fails with
the mapping error (no partial result), and the trace shows the file handle
being closed (the close happens right after the mapping call, before the
error is surfaced). -/
theorem mapping_failure_gives_error :
    (∀ (bytes : List Nat) (granularity addr : Nat) (offset length : Int),
      length ≠ 0 →
      osMap bytes (alignedOffset granularity offset)
        (mapLength granularity offset length) = none →
      FastReadFile (some bytes) granularity addr offset length =
        (Except.error ReadError.mappingError,
         [OsEvent.openFile, OsEvent.mapCall, OsEvent.closeFile])) ∧
    (∀ (bytes : List Nat) (granularity addr : Nat) (offset length : Int),
      0 ≤ offset → offset < 2 ^ 63 → 0 < length → length < 2 ^ 63 →
      (bytes.length : Int) < offset + length →
      FastReadFile (some bytes) granularity addr offset length =
        (Except.error ReadError.mappingError,
         [OsEvent.openFile, OsEvent.mapCall, OsEvent.closeFile])) := by
  constructor
  · intro bytes granularity addr offset length hne hfail
    simp only [FastReadFile]
    rw [if_neg hne, hfail]
  · intro bytes granularity addr offset length ho holt hl hllt hbeyond
    have hne : ¬(length = 0) := by omega
    have hOc : ((offset.toNat : Nat) : Int) = offset := Int.toNat_of_nonneg ho
    have hLc : ((length.toNat : Nat) : Int) = length :=
      Int.toNat_of_nonneg (le_of_lt hl)
    have hblen : bytes.length < offset.toNat + length.toNat := by
      have h2 : (bytes.length : Int) < ((offset.toNat + length.toNat : Nat) : Int) := by
        push_cast
        rw [hOc, hLc]
        exact hbeyond
      exact_mod_cast h2
    have hdm : offset.toNat / granularity * granularity
        + offset.toNat % granularity = offset.toNat :=
      Nat.div_add_mod' offset.toNat granularity
    have hfail : osMap bytes (alignedOffset granularity offset)
        (mapLength granularity offset length) = none := by
      rw [alignedOffset_eq granularity offset ho holt,
        mapLength_eq granularity offset length ho holt (le_of_lt hl) hllt]
      unfold osMap
      rw [if_neg ?_]
      intro hcond
      obtain ⟨-, -, h3⟩ := hcond
      rw [Int.toNat_natCast] at h3
      have hsum : offset.toNat / granularity * granularity
          + (length.toNat + offset.toNat % granularity)
          = offset.toNat / granularity * granularity
            + offset.toNat % granularity + length.toNat := by ring
      rw [hsum, hdm] at h3
      omega
    simp only [FastReadFile]
    rw [if_neg hne, hfail]

/-- Closed instance of the beyond-end-of-file part of
`mapping_failure_gives_error`: a 3-byte file, offset 2, length 5. -/
theorem mapping_failure_gives_error_witness :
    FastReadFile (some [1, 2, 3]) 4 77 2 5 =
      (Except.error ReadError.mappingError,
       [OsEvent.openFile, OsEvent.mapCall, OsEvent.closeFile]) :=
  mapping_failure_gives_error.2 [1, 2, 3] 4 77 2 5
    (by decide) (by decide) (by decide) (by decide) (by decide)

/-- C7: for every file that opens successfully and every offset, a request of
length 0 closes the handle and returns an empty, zero-length view without
invoking the mapping subsystem: no mapping call appears in the trace and no
release callback is attached. -/
theorem zero_length_short_circuit (bytes : List Nat) (granularity addr : Nat)
    (offset : Int) :
    FastReadFile (some bytes) granularity addr offset 0 =
      (Except.ok ⟨0, 0, [], none⟩, [OsEvent.openFile, OsEvent.closeFile]) := rfl

/-- C8: for every non-negative offset and positive length reaching the
mapping step, the computed parameters satisfy the alignment invariants:
`aligned_offset = floor(offset / granularity) * granularity` for the queried
granularity, `padding = offset - aligned_offset` with
`0 ≤ padding < granularity`, and `map_length = length + padding`. -/
theorem mapping_alignment_invariants (granularity : Nat) (offset length : Int)
    (hg : 0 < granularity) (ho : 0 ≤ offset) (holt : offset < 2 ^ 63)
    (hl : 0 < length) (hllt : length < 2 ^ 63) :
    alignedOffset granularity offset
      = offset / (granularity : Int) * granularity ∧
    (mapPadding granularity offset : Int)
      = offset - alignedOffset granularity offset ∧
    mapPadding granularity offset < granularity ∧
    (mapLength granularity offset length : Int)
      = length + (mapPadding granularity offset : Int) := by
  obtain ⟨O, rfl⟩ : ∃ O : Nat, ((O : Nat) : Int) = offset :=
    ⟨offset.toNat, Int.toNat_of_nonneg ho⟩
  obtain ⟨L, rfl⟩ : ∃ L : Nat, ((L : Nat) : Int) = length :=
    ⟨length.toNat, Int.toNat_of_nonneg (le_of_lt hl)⟩
  have hsub : O % granularity = O - O / granularity * granularity :=
    (Nat.sub_eq_of_eq_add (Nat.mod_add_div' O granularity).symm).symm
  refine ⟨?_, ?_, ?_, ?_⟩
  · rw [alignedOffset_eq granularity _ ho holt]
    simp only [Int.toNat_natCast]
    rw [Nat.cast_mul, Int.natCast_div]
  · rw [mapPadding_eq granularity _ ho holt,
      alignedOffset_eq granularity _ ho holt]
    simp only [Int.toNat_natCast]
    rw [hsub, Nat.cast_sub (Nat.div_mul_le_self _ _)]
  · rw [mapPadding_eq granularity _ ho holt, Int.toNat_natCast]
    exact Nat.mod_lt O hg
  · rw [mapLength_eq granularity _ _ ho holt (le_of_lt hl) hllt,
      mapPadding_eq granularity _ ho holt]
    simp only [Int.toNat_natCast]
    push_cast
    ring

/-- Closed instance of `mapping_alignment_invariants` with granularity 4096,
offset 10000, length 123. -/
theorem mapping_alignment_invariants_witness :
    alignedOffset 4096 10000 = 10000 / (4096 : Int) * 4096 ∧
    (mapPadding 4096 10000 : Int) = 10000 - alignedOffset 4096 10000 ∧
    mapPadding 4096 10000 < 4096 ∧
    (mapLength 4096 10000 123 : Int) = 123 + (mapPadding 4096 10000 : Int) :=
  mapping_alignment_invariants 4096 10000 123
    (by decide) (by decide) (by decide) (by decide) (by decide)

/-- C3 fails on the code: `FastReadFile` performs no negativity validation at
all.  With offset `-1` it opens the file and issues the mapping call (the C
cast chain turns the offset into `aligned_offset = -4096`, which the OS
rejects), surfacing the mapping error — not the invalid-argument error the
specification requires, and only after OS calls were made.  With length `-50`
and offset `100` it even "succeeds": `map_length` wraps to 50, the mapping is
created, and the returned view advertises `(size_t)(-50) = 2^64 - 50` bytes
over a 50-byte mapping. -/
theorem no_negative_argument_validation :
    FastReadFile (some (List.replicate 100 7)) 4096 0 (-1) 10 =
      (Except.error ReadError.mappingError,
       [OsEvent.openFile, OsEvent.mapCall, OsEvent.closeFile]) ∧
    FastReadFile (some (List.replicate 100 7)) 4096 0 100 (-50) =
      (Except.ok ⟨100, 2 ^ 64 - 50, [], some ⟨0, 50⟩⟩,
       [OsEvent.openFile, OsEvent.mapCall, OsEvent.closeFile]) :=
  ⟨rfl, rfl⟩

/-! ### Checksum lemmas -/

theorem le64_lt_pow (l : List Nat) (hb : ∀ b ∈ l, b < 256) :
    le64 l < 256 ^ l.length := by
  induction l with
  | nil => simp [le64]
  | cons a t ih =>
    have ha : a < 256 := hb a (List.mem_cons_self a t)
    have ht : le64 t < 256 ^ t.length :=
      ih (fun b hm => hb b (List.mem_cons_of_mem a hm))
    show a + 256 * le64 t < 256 ^ (a :: t).length
    rw [List.length_cons]
    calc a + 256 * le64 t < 256 + 256 * le64 t := by omega
      _ = 256 * (le64 t + 1) := by ring
      _ ≤ 256 * 256 ^ t.length := Nat.mul_le_mul_left 256 (by omega)
      _ = 256 ^ (t.length + 1) := by rw [pow_succ]; ring

theorem le64_lt_M64 (l : List Nat) (hlen : l.length ≤ 8)
    (hb : ∀ b ∈ l, b < 256) : le64 l < M64 := by
  have h1 := le64_lt_pow l hb
  have h2 : (256 : Nat) ^ l.length ≤ 256 ^ 8 :=
    Nat.pow_le_pow_right (by norm_num) hlen
  have h3 : (256 : Nat) ^ 8 = M64 := by norm_num [M64]
  omega

theorem simdLoopN_eq (k : Nat) : ∀ (acc : Lanes) (l : List Nat),
    simdLoopN k acc l = ((chunkListN k l).foldl addChunk acc, l.drop (32 * k)) := by
  induction k with
  | zero =>
    intro acc l
    simp [simdLoopN, chunkListN]
  | succ k ih =>
    intro acc l
    show simdLoopN k (addChunk acc (l.take 32)) (l.drop 32) = _
    rw [ih]
    simp only [chunkListN, List.foldl_cons, List.drop_drop]
    congr 2
    ring

theorem chunkListN_eq (k : Nat) : ∀ l : List Nat,
    chunkListN k l = (List.range k).map (fun c => (l.drop (32 * c)).take 32) := by
  induction k with
  | zero =>
    intro l
    simp [chunkListN]
  | succ k ih =>
    intro l
    rw [List.range_succ_eq_map, List.map_cons, List.map_map]
    show (l.take 32 : List Nat) :: chunkListN k (l.drop 32) = _
    rw [ih (l.drop 32)]
    have hf : (fun c => ((l.drop 32).drop (32 * c)).take 32)
        = ((fun c => (l.drop (32 * c)).take 32) ∘ Nat.succ) := by
      funext c
      simp only [Function.comp, List.drop_drop]
      congr 2
      omega
    rw [hf]
    congr 1

theorem foldl_addChunk_lanes (cs : List (List Nat)) : ∀ acc : Lanes,
    cs.foldl addChunk acc =
      ⟨cs.foldl (fun a ch => (a + laneOf ch 0) % M64) acc.l0,
       cs.foldl (fun a ch => (a + laneOf ch 1) % M64) acc.l1,
       cs.foldl (fun a ch => (a + laneOf ch 2) % M64) acc.l2,
       cs.foldl (fun a ch => (a + laneOf ch 3) % M64) acc.l3⟩ := by
  induction cs with
  | nil => intro acc; rfl
  | cons ch cs ih =>
    intro acc
    simp only [List.foldl_cons]
    rw [ih]
    rfl

theorem hexDigit_mem_hexChars (m : Nat) (h : m < 16) :
    ("0123456789abcdef".toList.contains (hexDigit m)) = true := by
  interval_cases m <;> decide

/-- C4: on 256-bit-vector platforms the fingerprint is the hex rendering of
the reference hash described by the spec (lane-wise wrapping chunk addition
into a zero accumulator, XOR fold, scalar remainder fold); on non-vector
platforms the whole buffer is folded scalar-only from zero; the rendering is
exactly 16 lowercase zero-padded hex characters, and the empty buffer yields
the all-zero string. -/
theorem SimdChecksum_matches_spec (buf : List Nat) :
    SimdChecksum buf = specFingerprint buf ∧
    SimdChecksumScalar buf = toHex16 (scalarFold 0 buf) ∧
    (SimdChecksum buf).length = 16 ∧
    ((SimdChecksum buf).toList.all
      fun c => "0123456789abcdef".toList.contains c) = true ∧
    SimdChecksum [] = "0000000000000000" := by
  refine ⟨?_, rfl, ?_, ?_, by decide⟩
  · unfold SimdChecksum simdHash specFingerprint specRemainder specLane specChunks
    rw [simdLoopN_eq, chunkListN_eq, foldl_addChunk_lanes]
    simp only [List.foldl_map]
  · show ((List.range 16).map
      (fun i => hexDigit (simdHash buf / 16 ^ (15 - i) % 16))).length = 16
    simp
  · show (((List.range 16).map
      (fun i => hexDigit (simdHash buf / 16 ^ (15 - i) % 16))).all
        fun c => "0123456789abcdef".toList.contains c) = true
    rw [List.all_eq_true]
    intro c hc
    obtain ⟨i, hi, rfl⟩ := List.mem_map.1 hc
    exact hexDigit_mem_hexChars _ (Nat.mod_lt _ (by norm_num))

/-- C5 as stated is false: the vector-accelerated path and the scalar-only
fallback disagree already on the 32-byte buffer `1, 0, ..., 0` (the vector
path yields hash 1, the scalar path yields `31 ^ 31 mod 2 ^ 64`). -/
theorem vector_scalar_differ :
    SimdChecksum (1 :: List.replicate 31 0)
      ≠ SimdChecksumScalar (1 :: List.replicate 31 0) := by decide

/-- C5 amended: the two paths agree exactly on the buffers where the vector
phase does no work — every buffer shorter than 32 bytes; for longer buffers
they differ in general, so the fingerprint is platform-dependent. -/
theorem vector_scalar_agree_short (buf : List Nat) (h : buf.length < 32) :
    SimdChecksum buf = SimdChecksumScalar buf := by
  unfold SimdChecksum SimdChecksumScalar simdHash scalarHash
  rw [Nat.div_eq_of_lt h]
  simp [simdLoopN]

/-- Closed instance of `vector_scalar_agree_short` on a 3-byte buffer. -/
theorem vector_scalar_agree_short_witness :
    SimdChecksum [1, 2, 3] = SimdChecksumScalar [1, 2, 3] :=
  vector_scalar_agree_short [1, 2, 3] (by decide)

/-- C10: on 256-bit-vector platforms each 64-bit lane of the accumulator is
the little-endian interpretation of 8 consecutive buffer bytes; for a buffer
of exactly 32 bytes the loop consumes the single chunk, the remainder is
empty (the scalar loop performs zero iterations), and the fingerprint is the
hex rendering of the XOR of the four little-endian 64-bit words. -/
theorem lanes_little_endian_32 (buf : List Nat) (h32 : buf.length = 32)
    (hb : ∀ b ∈ buf, b < 256) :
    (simdLoopN (buf.length / 32) ⟨0, 0, 0, 0⟩ buf).1 =
      ⟨le64 (buf.take 8), le64 ((buf.drop 8).take 8),
       le64 ((buf.drop 16).take 8), le64 ((buf.drop 24).take 8)⟩ ∧
    (simdLoopN (buf.length / 32) ⟨0, 0, 0, 0⟩ buf).2 = [] ∧
    SimdChecksum buf = toHex16 (le64 (buf.take 8) ^^^ le64 ((buf.drop 8).take 8)
      ^^^ le64 ((buf.drop 16).take 8) ^^^ le64 ((buf.drop 24).take 8)) := by
  have hk : buf.length / 32 = 1 := by rw [h32]
  have htake : buf.take 32 = buf := List.take_of_length_le (by omega)
  have hdrop : buf.drop 32 = [] := List.drop_of_length_le (by omega)
  have hb0 : le64 (buf.take 8) < M64 :=
    le64_lt_M64 _ (by simp) (fun b hm => hb b (List.take_subset _ _ hm))
  have hb8 : le64 ((buf.drop 8).take 8) < M64 :=
    le64_lt_M64 _ (by simp)
      (fun b hm => hb b (List.drop_subset _ _ (List.take_subset _ _ hm)))
  have hb16 : le64 ((buf.drop 16).take 8) < M64 :=
    le64_lt_M64 _ (by simp)
      (fun b hm => hb b (List.drop_subset _ _ (List.take_subset _ _ hm)))
  have hb24 : le64 ((buf.drop 24).take 8) < M64 :=
    le64_lt_M64 _ (by simp)
      (fun b hm => hb b (List.drop_subset _ _ (List.take_subset _ _ hm)))
  have haddChunk : addChunk ⟨0, 0, 0, 0⟩ buf =
      ⟨le64 (buf.take 8), le64 ((buf.drop 8).take 8),
       le64 ((buf.drop 16).take 8), le64 ((buf.drop 24).take 8)⟩ := by
    simp only [addChunk, laneOf, Lanes.mk.injEq, Nat.zero_add]
    norm_num
    exact ⟨Nat.mod_eq_of_lt hb0, Nat.mod_eq_of_lt hb8,
      Nat.mod_eq_of_lt hb16, Nat.mod_eq_of_lt hb24⟩
  have hloop : simdLoopN (buf.length / 32) ⟨0, 0, 0, 0⟩ buf
      = (addChunk ⟨0, 0, 0, 0⟩ buf, []) := by
    rw [hk]
    show simdLoopN 0 (addChunk ⟨0, 0, 0, 0⟩ (buf.take 32)) (buf.drop 32) = _
    rw [htake, hdrop]
    rfl
  refine ⟨by rw [hloop, haddChunk], by rw [hloop], ?_⟩
  unfold SimdChecksum simdHash
  rw [hloop, haddChunk]
  rfl

/-- Closed instance of `lanes_little_endian_32` on the 32-byte buffer
`100, 0, 0, ..., 0` (lane 0 is 100, the others 0, so the fingerprint is the
hex rendering of 100). -/
theorem lanes_little_endian_32_witness :
    SimdChecksum (100 :: List.replicate 31 0)
      = toHex16 (le64 ((100 :: List.replicate 31 0).take 8)
        ^^^ le64 (((100 :: List.replicate 31 0).drop 8).take 8)
        ^^^ le64 (((100 :: List.replicate 31 0).drop 16).take 8)
        ^^^ le64 (((100 :: List.replicate 31 0).drop 24).take 8)) :=
  (lanes_little_endian_32 (100 :: List.replicate 31 0)
    (by decide) (by decide)).2.2

/-- C9: `statPath` (`GetFileStats`) returns `{size, mtime}` with `size` the
file's true byte length and `mtime` the modification time in whole seconds,
both signed 64-bit; when the OS stat call fails it fails with the stat error
and returns no result. -/
theorem statPath_spec (fs : String → Option (List Nat × Int)) (path : String)
    (content : List Nat) (mtime : Int) :
    (fs path = some (content, mtime) →
      GetFileStats fs path = Except.ok ⟨(content.length : Int), mtime⟩) ∧
    (fs path = none → GetFileStats fs path = Except.error StatError.statFailed) := by
  constructor
  · intro h
    simp [GetFileStats, osStat, h]
  · intro h
    simp [GetFileStats, osStat, h]

/-- Closed instance of `statPath_spec` on the example filesystem: the known
path reports size 3 and mtime 99, the missing path fails. -/
theorem statPath_spec_witness :
    GetFileStats fsExample "data.bin"
      = Except.ok ⟨(([3, 1, 4] : List Nat).length : Int), 99⟩ ∧
    GetFileStats fsExample "missing" = Except.error StatError.statFailed :=
  ⟨(statPath_spec fsExample "data.bin" [3, 1, 4] 99).1 rfl,
   (statPath_spec fsExample "missing" [3, 1, 4] 99).2 rfl⟩
